import Mathlib

/-
Verification development for a minimal proof-of-work blockchain node
(`#2_blockchain_impl`): the chain data model, hashing/mining, block and
chain validation, fork choice, and the gossip message dispatch are
shallowly embedded below, translated from `main.rs`, `blockchain.rs` and
`peers.rs`.  Rust panics (`expect`, `panic!`) are modelled by `Option`
results (`none` = panic); machine integers are modelled by `Nat`/`Int`
(no arithmetic in the embedded code paths can overflow `u64`/`i64` on
the inputs considered).
-/

set_option maxRecDepth 20000

/-! ## SHA-256 (the `sha2` crate's digest, reimplemented bit-faithfully) -/

/-- Truncate to a 32-bit word. -/
def w32 (n : Nat) : Nat := n % 4294967296

/-- 32-bit rotate right. -/
def rotr (k w : Nat) : Nat := w32 ((w >>> k) ||| (w <<< (32 - k)))

def bsig0 (x : Nat) : Nat := (rotr 2 x) ^^^ (rotr 13 x) ^^^ (rotr 22 x)

def bsig1 (x : Nat) : Nat := (rotr 6 x) ^^^ (rotr 11 x) ^^^ (rotr 25 x)

def ssig0 (x : Nat) : Nat := (rotr 7 x) ^^^ (rotr 18 x) ^^^ (x >>> 3)

def ssig1 (x : Nat) : Nat := (rotr 17 x) ^^^ (rotr 19 x) ^^^ (x >>> 10)

def chF (x y z : Nat) : Nat := (x &&& y) ^^^ ((x ^^^ 4294967295) &&& z)

def majF (x y z : Nat) : Nat := (x &&& y) ^^^ (x &&& z) ^^^ (y &&& z)

def sha256K : List Nat := [1116352408, 1899447441, 3049323471, 3921009573, 961987163, 1508970993, 2453635748, 2870763221, 3624381080, 310598401, 607225278, 1426881987, 1925078388, 2162078206, 2614888103, 3248222580, 3835390401, 4022224774, 264347078, 604807628, 770255983, 1249150122, 1555081692, 1996064986, 2554220882, 2821834349, 2952996808, 3210313671, 3336571891, 3584528711, 113926993, 338241895, 666307205, 773529912, 1294757372, 1396182291, 1695183700, 1986661051, 2177026350, 2456956037, 2730485921, 2820302411, 3259730800, 3345764771, 3516065817, 3600352804, 4094571909, 275423344, 430227734, 506948616, 659060556, 883997877, 958139571, 1322822218, 1537002063, 1747873779, 1955562222, 2024104815, 2227730452, 2361852424, 2428436474, 2756734187, 3204031479, 3329325298]

def sha256H0 : List Nat := [1779033703, 3144134277, 1013904242, 2773480762, 1359893119, 2600822924, 528734635, 1541459225]

/-- Big-endian 4-byte groups to 32-bit words. -/
def toWords : List Nat → List Nat
  | a :: b :: c :: d :: rest => (((a <<< 8 ||| b) <<< 8 ||| c) <<< 8 ||| d) :: toWords rest
  | _ => []

/-- Message-schedule extension: append `fuel` further words. -/
def wExtend : Nat → List Nat → List Nat
  | 0, ws => ws
  | f + 1, ws =>
      let n := ws.length
      let x := w32 (ssig1 (ws.getD (n - 2) 0) + ws.getD (n - 7) 0 +
        ssig0 (ws.getD (n - 15) 0) + ws.getD (n - 16) 0)
      wExtend f (ws ++ [x])

/-- One SHA-256 round on the state `[a,b,c,d,e,f,g,h]`. -/
def roundFn (kw : Nat × Nat) (st : List Nat) : List Nat :=
  match st with
  | [a, b, c, d, e, f, g, h] =>
      let t1 := w32 (h + bsig1 e + chF e f g + kw.1 + kw.2)
      let t2 := w32 (bsig0 a + majF a b c)
      [w32 (t1 + t2), a, b, c, w32 (d + t1), e, f, g]
  | other => other

/-- Compression of one 64-byte block into the running state. -/
def sha256Compress (H : List Nat) (block : List Nat) : List Nat :=
  let ws := wExtend 48 (toWords block)
  let st := (sha256K.zip ws).foldl (fun s kw => roundFn kw s) H
  (H.zip st).map (fun p => w32 (p.1 + p.2))

/-- Split into 64-byte chunks (`fuel` bounds the recursion). -/
def chunks64 : Nat → List Nat → List (List Nat)
  | 0, _ => []
  | _, [] => []
  | f + 1, bs => bs.take 64 :: chunks64 f (bs.drop 64)

/-- Big-endian 8-byte encoding of the bit length. -/
def lenBytes (bits : Nat) : List Nat :=
  [(bits >>> 56) % 256, (bits >>> 48) % 256, (bits >>> 40) % 256, (bits >>> 32) % 256,
   (bits >>> 24) % 256, (bits >>> 16) % 256, (bits >>> 8) % 256, bits % 256]

/-- SHA-256 padding: 0x80, zeros to 56 mod 64, then the 64-bit length. -/
def sha256pad (msg : List Nat) : List Nat :=
  msg ++ 128 :: List.replicate ((119 - (msg.length % 64)) % 64) 0 ++ lenBytes (8 * msg.length)

/-- A 32-bit word as four big-endian bytes. -/
def wordBytes (w : Nat) : List Nat :=
  [(w >>> 24) % 256, (w >>> 16) % 256, (w >>> 8) % 256, w % 256]

/-- SHA-256 of a byte sequence, as a list of 32 bytes. -/
def sha256 (msg : List Nat) : List Nat :=
  let padded := sha256pad msg
  (((chunks64 padded.length padded).foldl sha256Compress sha256H0).map wordBytes).flatten

/-! ## Hex encoding/decoding (the `hex` crate) and UTF-8 -/

/-- Lowercase hex digit for a value below 16, as `hex::encode` prints it. -/
def hexDigitCh (n : Nat) : Char := if n < 10 then Char.ofNat (48 + n) else Char.ofNat (87 + n)

/-- `hex::encode`: two lowercase hex digits per byte. -/
def hexEncode (bytes : List Nat) : String :=
  String.mk ((bytes.map (fun b => [hexDigitCh (b / 16), hexDigitCh (b % 16)])).flatten)

/-- Value of one hex digit, accepting both cases as `hex::decode` does. -/
def hexVal (c : Char) : Option Nat :=
  if 48 ≤ c.toNat ∧ c.toNat ≤ 57 then some (c.toNat - 48)
  else if 97 ≤ c.toNat ∧ c.toNat ≤ 102 then some (c.toNat - 87)
  else if 65 ≤ c.toNat ∧ c.toNat ≤ 70 then some (c.toNat - 55)
  else none

def hexDecodeList : List Char → Option (List Nat)
  | [] => some []
  | [_] => none
  | a :: b :: rest =>
      match hexVal a, hexVal b, hexDecodeList rest with
      | some x, some y, some t => some ((16 * x + y) :: t)
      | _, _, _ => none

/-- `hex::decode`: fails on odd length or a non-hex character. -/
def hexDecode (s : String) : Option (List Nat) := hexDecodeList s.toList

/-- UTF-8 encoding of one scalar value (Rust strings are UTF-8). -/
def utf8Bytes (c : Char) : List Nat :=
  let n := c.toNat
  if n < 128 then [n]
  else if n < 2048 then [192 ||| (n >>> 6), 128 ||| (n &&& 63)]
  else if n < 65536 then [224 ||| (n >>> 12), 128 ||| ((n >>> 6) &&& 63), 128 ||| (n &&& 63)]
  else [240 ||| (n >>> 18), 128 ||| ((n >>> 12) &&& 63), 128 ||| ((n >>> 6) &&& 63), 128 ||| (n &&& 63)]

/-- The UTF-8 bytes of a string, as `str::as_bytes` yields them. -/
def strBytes (s : String) : List Nat := (s.toList.map utf8Bytes).flatten

/-! ## The serde_json serialization used by `calculate_hash` -/

/-- serde_json's escaping of one character inside a JSON string literal. -/
def jsonEscapeChar (c : Char) : List Char :=
  if c = '"' then ['\\', '"']
  else if c = '\\' then ['\\', '\\']
  else if c.toNat = 8 then ['\\', 'b']
  else if c.toNat = 9 then ['\\', 't']
  else if c.toNat = 10 then ['\\', 'n']
  else if c.toNat = 12 then ['\\', 'f']
  else if c.toNat = 13 then ['\\', 'r']
  else if c.toNat < 32 then ['\\', 'u', '0', '0', hexDigitCh (c.toNat / 16), hexDigitCh (c.toNat % 16)]
  else [c]

def jsonEscape (s : String) : String := String.mk ((s.toList.map jsonEscapeChar).flatten)

/-- The compact serialization of the `serde_json::json!` object built in
`calculate_hash`: serde_json's default map is ordered by key, so the keys
appear alphabetically (data, id, nonce, previous_hash, timestamp).  This
exact byte string is what the repository hashes (validated below against
the mined block recorded in a comment of `peers.rs`). -/
def blockJson (id : Nat) (timestamp : Int) (previous_hash data : String) (nonce : Nat) : String :=
  "\x7b\"data\":\"" ++ jsonEscape data ++ "\",\"id\":" ++ toString id ++
    ",\"nonce\":" ++ toString nonce ++ ",\"previous_hash\":\"" ++ jsonEscape previous_hash ++
    "\",\"timestamp\":" ++ toString timestamp ++ "\x7d"

/-- `calculate_hash` from `main.rs`: SHA-256 of the serialized JSON object. -/
def calculate_hash (id : Nat) (timestamp : Int) (previous_hash data : String) (nonce : Nat) : List Nat :=
  sha256 (strBytes (blockJson id timestamp previous_hash data nonce))

/-- The 64-character all-zero placeholder hash used by `genesis`. -/
def zeros64 : String := "0000000000000000000000000000000000000000000000000000000000000000"

/-! ## Data model (`main.rs`: `Transaction`, `Block`, the chain state) -/

/-- `Transaction` from `transaction.rs` (fields as used by the chain code).
The `f32` amount is modelled by its bit pattern: no verified code path
performs arithmetic on it, only structural copies and equality. -/
structure Transaction where
  sender : String
  receiver : String
  amountBits : Nat
deriving DecidableEq

/-- `Block` from `main.rs`. `u64` fields are `Nat`, the `i64` timestamp is
`Int`; no embedded operation can overflow them on the inputs considered. -/
structure Block where
  id : Nat
  hash : String
  previous_hash : String
  timestamp : Int
  data : String
  transactions : List Transaction
  nonce : Nat
deriving DecidableEq

/-- `DIFFICULTY_PREFIX` from `main.rs`. -/
def DIFFICULTY_PREFIX : String := "00"

/-- Rust `str::starts_with` with a string pattern. -/
def rsStartsWith (s pat : String) : Bool := List.isPrefixOf pat.toList s.toList

/-- Rust `format!` with the `:b` specifier: binary digits of `n` with no
leading zeros (and the single digit 0 for `n = 0`).  The fuel argument is
always called with `fuel ≥ n`, which exceeds the bit count. -/
def natBinAux : Nat → Nat → List Char
  | 0, _ => []
  | _, 0 => []
  | f + 1, n => natBinAux f (n / 2) ++ [if n % 2 = 1 then '1' else '0']

def natToBinChars (n : Nat) : List Char := if n = 0 then ['0'] else natBinAux n n

/-- `hash_to_binary_representation` from `main.rs`: pushes each byte's
`:b` rendering onto an initially empty string. -/
def hash_to_binary_representation (hash : List Nat) : String :=
  hash.foldl (fun res c => res ++ String.mk (natToBinChars c)) ""

/-! ## Mining (`mine_block` in `main.rs`) -/

/-- The body of `mine_block`'s `loop`, with an explicit fuel bound on the
number of iterations (the Rust loop is unbounded; `none` models
non-termination within the allotted fuel, never a panic). -/
def mineAux (id : Nat) (timestamp : Int) (previous_hash data : String) : Nat → Nat → Option (Nat × String)
  | 0, _ => none
  | fuel + 1, nonce =>
      let hash := calculate_hash id timestamp previous_hash data nonce
      let binary_hash := hash_to_binary_representation hash
      if rsStartsWith binary_hash DIFFICULTY_PREFIX then some (nonce, hexEncode hash)
      else mineAux id timestamp previous_hash data fuel (nonce + 1)

/-- `mine_block` from `main.rs`: the nonce search starting at 0. -/
def mine_block (id : Nat) (timestamp : Int) (previous_hash data : String) (fuel : Nat) : Option (Nat × String) :=
  mineAux id timestamp previous_hash data fuel 0

/-! ## Validation, append, genesis, fork choice (`App` in `main.rs`) -/

/-- `App::is_block_valid`.  The source's three checks in order, with the
source's short-circuiting `else if` chain; `none` models the panic of
`hex::decode(&block.hash).expect("can decode from hex")`. -/
def is_block_valid (block previous_block : Block) : Option Bool :=
  if block.previous_hash ≠ previous_block.hash then some false
  else
    match hexDecode block.hash with
    | none => none
    | some decoded =>
        if ¬ rsStartsWith (hash_to_binary_representation decoded) DIFFICULTY_PREFIX then some false
        else if hexEncode (calculate_hash block.id block.timestamp block.previous_hash block.data
            block.nonce) ≠ block.hash then some false
        else some true

/-- The body of `App::is_chain_valid`'s indexed `for i in 0..chain.len()`
loop: `rem` counts the iterations still to run, `i` is the loop index.
The `expect("has to exist")` lookups are the `none` fallback (unreachable
while `i < chain.length`). -/
def chainValidLoop (chain : List Block) : Nat → Nat → Option Bool
  | 0, _ => some true
  | rem + 1, i =>
      if i = 0 then chainValidLoop chain rem (i + 1)
      else
        match chain[i - 1]?, chain[i]? with
        | some first, some second =>
            match is_block_valid second first with
            | some true => chainValidLoop chain rem (i + 1)
            | some false => some false
            | none => none
        | _, _ => none

/-- `App::is_chain_valid` from `main.rs`. -/
def is_chain_valid (chain : List Block) : Option Bool := chainValidLoop chain chain.length 0

/-- `App::try_add_block`, acting on the `blocks` vector: `none` models the
panic of `last().expect(...)` on an empty chain, and a propagated panic
from `is_block_valid`; an invalid block only logs and leaves the vector
unchanged. -/
def try_add_block (block : Block) (blocks : List Block) : Option (List Block) :=
  match blocks.getLast? with
  | none => none
  | some latest_block =>
      match is_block_valid block latest_block with
      | some true => some (blocks ++ [block])
      | some false => some blocks
      | none => none

/-- The fixed genesis record pushed by `App::genesis` (its timestamp is
`Utc::now()`, passed here as a parameter). -/
def genesisBlock (timestamp : Int) : Block :=
  { id := 0, hash := zeros64, previous_hash := zeros64, timestamp := timestamp,
    data := "Genesis", transactions := [], nonce := 0 }

/-- `App::genesis`: unconditionally pushes the genesis record. -/
def genesis (timestamp : Int) (blocks : List Block) : List Block :=
  blocks ++ [genesisBlock timestamp]

/-- `App::choose_chain`: validates both candidates, then picks; `none`
models the `panic!("local and remote chains are both invalid")` as well
as a panic propagated out of `is_chain_valid`. -/
def choose_chain (loc remote : List Block) : Option (List Block) :=
  match is_chain_valid loc, is_chain_valid remote with
  | some is_local_valid, some is_remote_valid =>
      if is_local_valid && is_remote_valid then
        some (if loc.length ≥ remote.length then loc else remote)
      else if is_remote_valid && !is_local_valid then some remote
      else if !is_remote_valid && is_local_valid then some loc
      else none
  | _, _ => none

/-! ## Gossip dispatch (`peers.rs`) -/

/-- `ChainResponse` from `peers.rs`. -/
structure ChainResponse where
  blocks : List Block
  receiver : String
deriving DecidableEq

/-- `LocalChainRequest` from `peers.rs`. -/
structure LocalChainRequest where
  from_peer_id : String
deriving DecidableEq

/-- An inbound floodsub message, modelled by the outcomes of the three
trial JSON decodings `inject_event` attempts on `msg.data`, plus the
message source.  (`serde_json::from_slice` is structural: a payload may
decode as several of the shapes; each `Option` records that attempt.) -/
structure FloodsubMsg where
  asChainResponse : Option ChainResponse
  asChainRequest : Option LocalChainRequest
  asBlock : Option Block
  source : String

/-- The node state touched by `inject_event`: the chain (`app.blocks`) and
the responses handed to `response_sender` for later publication. -/
structure NodeState where
  blocks : List Block
  queued : List ChainResponse
deriving DecidableEq

/-- `inject_event` for `FloodsubEvent::Message` in `peers.rs`: the ordered
`if let Ok(..) else if let Ok(..) else if let Ok(..)` chain.  A send error
on the response channel is only logged, so queuing always succeeds here;
`none` models a panic propagated from `choose_chain`/`try_add_block`. -/
def inject_event (selfId : String) (msg : FloodsubMsg) (st : NodeState) : Option NodeState :=
  match msg.asChainResponse with
  | some resp =>
      if resp.receiver = selfId then
        match choose_chain st.blocks resp.blocks with
        | some chosen => some { st with blocks := chosen }
        | none => none
      else some st
  | none =>
      match msg.asChainRequest with
      | some req =>
          if req.from_peer_id = selfId then
            some { st with queued := st.queued ++ [{ blocks := st.blocks, receiver := msg.source }] }
          else some st
      | none =>
          match msg.asBlock with
          | some block =>
              match try_add_block block st.blocks with
              | some blocks2 => some { st with blocks := blocks2 }
              | none => none
          | none => some st

/-- The two hard-coded example transfers of `handle_create_block`. -/
def exampleTx1 : Transaction :=
  { sender := "03638e59237924128f9c9be55d435ecfcac3c6f774641b1cf24873ebbacede6098",
    receiver := "a8668a61f0d237403fb31545eaa0dcd756dc33a609ecfcc777c8cb2c6dce8247",
    amountBits := 1092616192 }

def exampleTx2 : Transaction :=
  { sender := "03638e5op1239dnvcnrkdf39rk435ecfcac3c6f774641b1cf24873ebbacede6098",
    receiver := "a8668a61ffwef213lasddgtvnb9329rjd4s67aapsfkcfln777c8cb2c6dce8247",
    amountBits := 1092616192 }

/-- `handle_create_block` from `peers.rs`, restricted to its effect on the
chain: on a `create b`-prefixed command it reads the tip
(`last().expect(...)`, `none` on an empty chain), mines a block via
`Block::new` (timestamp `Utc::now()` passed as a parameter, the unbounded
search bounded by `fuel`) and pushes it.  Other commands never reach it. -/
def handle_create_block (cmd : String) (timestamp : Int) (fuel : Nat) (blocks : List Block) : Option (List Block) :=
  if rsStartsWith cmd ("create b") then
    match blocks.getLast? with
    | none => none
    | some latest_block =>
        match mine_block (latest_block.id + 1) timestamp latest_block.hash
            (cmd.drop (String.length ("create b"))) fuel with
        | none => none
        | some (nonce, hash) =>
            some (blocks ++
              [{ id := latest_block.id + 1, hash := hash,
                 previous_hash := latest_block.hash, timestamp := timestamp,
                 data := cmd.drop (String.length ("create b")),
                 transactions := [exampleTx1, exampleTx2], nonce := nonce }])
  else some blocks

/-! ## Spec-side definition: chain validity as consecutive-pair checking -/

/-- Modelled from the spec: validates the pair (sequence[i-1], sequence[i])
for i in 1..len with `is_block_valid`, false at the first invalid pair,
true otherwise, index 0 never itself validated.  Stated by structural
recursion over adjacent pairs; compared against the source's indexed
loop in the C7 theorem. -/
def chain_valid_pairs_spec : List Block → Option Bool
  | [] => some true
  | [_] => some true
  | a :: b :: rest =>
      match is_block_valid b a with
      | some true => chain_valid_pairs_spec (b :: rest)
      | some false => some false
      | none => none

/-! ## Helper definitions for the theorems below -/

/-- Short-circuit sequencing of two pair-run outcomes: used to state how
`chain_valid_pairs_spec` splits at a shared block. -/
def seqOpt : Option Bool → Option Bool → Option Bool
  | some true, q => q
  | some false, _ => some false
  | none, _ => none

/-- A record shaped like the fixed genesis record (any timestamp). -/
def isGenesisShaped (b : Block) : Bool :=
  b.id == 0 && b.hash == zeros64 && b.previous_hash == zeros64 &&
    b.data == "Genesis" && b.transactions == [] && b.nonce == 0

/-- Concrete genesis record used in witnesses. -/
def gA : Block := genesisBlock 1700000000

/-- A concrete mined record on top of `gA`: nonce 37790 is the first nonce
whose digest meets the difficulty prefix for these fields (verified below
by evaluation of the embedded `calculate_hash`). -/
def blockB1 : Block :=
  { id := 1, hash := "000023f6aad91bae3419eb278d5a3acb92f4f9ecba1ee208313cab4a6d89e753",
    previous_hash := zeros64, timestamp := 1700000000, data := "hello",
    transactions := [exampleTx1, exampleTx2], nonce := 37790 }

/-- A concrete valid two-record chain. -/
def chain2 : List Block := [gA, blockB1]

/-- A record whose `previous_hash` matches nothing: chains ending in it are
rejected at the first `is_block_valid` check. -/
def badBlock : Block :=
  { id := 1, hash := "ff", previous_hash := "aa", timestamp := 0, data := "x",
    transactions := [], nonce := 0 }

/-- A concrete invalid chain (fails the previous-hash check). -/
def badChain : List Block := [gA, badBlock]

/-- A candidate whose `previous_hash` matches `gA` but whose `hash` field is
not valid hex: evaluating `is_block_valid` on it reaches `hex::decode`. -/
def nonHexBlock : Block :=
  { id := 1, hash := "zz", previous_hash := zeros64, timestamp := 0, data := "x",
    transactions := [], nonce := 0 }

/-! ## Theorems.  First: the indexed loop of `is_chain_valid` visits exactly
the consecutive pairs (C7), which the later claims also rely on. -/

theorem pairs_spec_of_short (l : List Block) (h : l.length ≤ 1) :
    chain_valid_pairs_spec l = some true := by
  match l with
  | [] => rfl
  | [_] => rfl
  | a :: b :: t => simp [List.length] at h

theorem chainValidLoop_eq_pairs (chain : List Block) :
    ∀ rem i, 1 ≤ i → rem + i = chain.length →
      chainValidLoop chain rem i = chain_valid_pairs_spec (chain.drop (i - 1)) := by
  intro rem
  induction rem with
  | zero =>
      intro i hi hlen
      have : (chain.drop (i - 1)).length ≤ 1 := by
        simp only [List.length_drop]
        omega
      rw [pairs_spec_of_short _ this]
      rfl
  | succ rem ih =>
      intro i hi hlen
      have h2 : i < chain.length := by omega
      have h1 : i - 1 < chain.length := by omega
      have hd1 : chain.drop (i - 1) = chain[i - 1] :: chain.drop (i - 1 + 1) :=
        List.drop_eq_getElem_cons h1
      have hi1 : i - 1 + 1 = i := by omega
      rw [hi1] at hd1
      have hd2 : chain.drop i = chain[i] :: chain.drop (i + 1) :=
        List.drop_eq_getElem_cons h2
      have hg1 : chain[i - 1]? = some chain[i - 1] := List.getElem?_eq_getElem h1
      have hg2 : chain[i]? = some chain[i] := List.getElem?_eq_getElem h2
      have hne : ¬ (i = 0) := by omega
      rw [chainValidLoop, if_neg hne, hg1, hg2, hd1, hd2, chain_valid_pairs_spec]
      dsimp only
      match hv : is_block_valid chain[i] chain[i - 1] with
      | some true =>
          have h3 := ih (i + 1) (by omega) (by omega)
          have h4 : i + 1 - 1 = i := by omega
          rw [h4, hd2] at h3
          exact h3
      | some false => rfl
      | none => rfl

theorem is_chain_valid_eq_pairs (chain : List Block) :
    is_chain_valid chain = chain_valid_pairs_spec chain := by
  rw [is_chain_valid]
  match hc : chain.length with
  | 0 =>
      have : chain = [] := List.length_eq_zero.mp hc
      subst this
      rfl
  | n + 1 =>
      rw [chainValidLoop, if_pos rfl]
      have := chainValidLoop_eq_pairs chain n 1 (by omega) (by omega)
      simpa using this

/-- The FIPS 180-4 test vector: the embedded SHA-256 digests the three
ASCII bytes of the string abc to the standard value. -/
theorem sha256_abc_vector :
    sha256 [97, 98, 99] = [186, 120, 22, 191, 143, 1, 207, 234, 65, 65, 64, 222, 93, 174, 34, 35, 176, 3, 97, 163, 150, 23, 122, 156, 180, 16, 255, 97, 242, 0, 21, 173] := by
  decide

/-- Embedding validation: the block recorded in the comment at the bottom of
`peers.rs` (id 1, nonce 232558, timestamp 1714932213, empty data, genesis
previous hash) really hashes to the hash stored there. -/
theorem calculate_hash_matches_repo_sample :
    hexEncode (calculate_hash 1 1714932213 zeros64 "" 232558) =
      "00007a4d65472a95794e905ad8426baa62be51b789ec3864a24fbf9e5dcaceb3" := by
  decide

/-- Validation of the concrete mined record: `blockB1` is a valid successor
of the genesis record and `chain2` passes `is_chain_valid`. -/
theorem chain2_valid : is_chain_valid chain2 = some true := by decide

/-- C7: `is_chain_valid` validates exactly the consecutive pairs
(sequence[i-1], sequence[i]) for i in 1..len with `is_block_valid` —
returning false at the first invalid pair and true otherwise, as the
structurally recursive `chain_valid_pairs_spec` states — and index 0 is
never itself validated, so a chain of a single arbitrary (genesis) record
is always valid. -/
theorem chain_valid_checks_consecutive_pairs :
    (∀ chain, is_chain_valid chain = chain_valid_pairs_spec chain) ∧
    (∀ b, is_chain_valid [b] = some true) := by
  refine ⟨is_chain_valid_eq_pairs, ?_⟩
  intro b
  rfl

/-- C1: fork choice.  If both chains pass validation the longer one is
chosen with ties resolved to the local chain (the result's length is the
maximum of the two); if exactly one passes, that one is chosen; if
neither passes, the result is the `panic!` (`none`), never a silently
chosen chain. -/
theorem choose_chain_forkchoice (loc remote : List Block) :
    (is_chain_valid loc = some true → is_chain_valid remote = some true →
      ∃ c, choose_chain loc remote = some c ∧ c.length = max loc.length remote.length ∧
        (c = loc ∨ c = remote) ∧ (loc.length = remote.length → c = loc)) ∧
    (is_chain_valid loc = some true → is_chain_valid remote = some false →
      choose_chain loc remote = some loc) ∧
    (is_chain_valid loc = some false → is_chain_valid remote = some true →
      choose_chain loc remote = some remote) ∧
    (is_chain_valid loc = some false → is_chain_valid remote = some false →
      choose_chain loc remote = none) := by
  refine ⟨?_, ?_, ?_, ?_⟩ <;> intro hl hr <;> rw [choose_chain, hl, hr] <;> dsimp only
  · by_cases hle : remote.length ≤ loc.length
    · refine ⟨loc, ?_, ?_, Or.inl rfl, fun _ => rfl⟩
      · simp [hle]
      · omega
    · refine ⟨remote, ?_, ?_, Or.inr rfl, fun he => absurd he (by omega)⟩
      · simp [hle]
      · omega
  · rfl
  · rfl
  · rfl

/-- Witness for C1: all four fork-choice cases at concrete chains —
a valid one-record chain against a valid empty chain (longer wins, local
side), the valid chain against an invalid one and vice versa, and the
panic when both candidates are invalid. -/
theorem choose_chain_forkchoice_witness :
    (∃ c, choose_chain [gA] [] = some c ∧ c.length = max [gA].length ([] : List Block).length ∧
      (c = [gA] ∨ c = []) ∧ ([gA].length = ([] : List Block).length → c = [gA])) ∧
    choose_chain [gA] badChain = some [gA] ∧
    choose_chain badChain [gA] = some [gA] ∧
    choose_chain badChain badChain = none :=
  ⟨(choose_chain_forkchoice [gA] []).1 (by decide) (by decide),
   (choose_chain_forkchoice [gA] badChain).2.1 (by decide) (by decide),
   (choose_chain_forkchoice badChain [gA]).2.2.1 (by decide) (by decide),
   (choose_chain_forkchoice badChain badChain).2.2.2 (by decide) (by decide)⟩

/-- C3 (amended): `is_block_valid` evaluates its three ordered,
short-circuiting checks — previous-hash linkage, difficulty prefix of the
hex-decoded hash, recomputed digest — and returns `some false` at the
first failing check; but when the first check passes and the candidate's
`hash` is not valid hex, `hex::decode(..).expect(..)` panics (`none`)
instead of reporting a failure. -/
theorem is_block_valid_ordered_checks (b p : Block) :
    (b.previous_hash ≠ p.hash → is_block_valid b p = some false) ∧
    (b.previous_hash = p.hash → hexDecode b.hash = none → is_block_valid b p = none) ∧
    (∀ bytes, b.previous_hash = p.hash → hexDecode b.hash = some bytes →
      rsStartsWith (hash_to_binary_representation bytes) DIFFICULTY_PREFIX = false →
      is_block_valid b p = some false) ∧
    (∀ bytes, b.previous_hash = p.hash → hexDecode b.hash = some bytes →
      rsStartsWith (hash_to_binary_representation bytes) DIFFICULTY_PREFIX = true →
      hexEncode (calculate_hash b.id b.timestamp b.previous_hash b.data b.nonce) ≠ b.hash →
      is_block_valid b p = some false) ∧
    (∀ bytes, b.previous_hash = p.hash → hexDecode b.hash = some bytes →
      rsStartsWith (hash_to_binary_representation bytes) DIFFICULTY_PREFIX = true →
      hexEncode (calculate_hash b.id b.timestamp b.previous_hash b.data b.nonce) = b.hash →
      is_block_valid b p = some true) := by
  refine ⟨?_, ?_, ?_, ?_, ?_⟩
  · intro h1
    rw [is_block_valid, if_pos h1]
  · intro h1 h2
    rw [is_block_valid, if_neg (by simp [h1]), h2]
  · intro bytes h1 h2 h3
    rw [is_block_valid, if_neg (by simp [h1]), h2]
    simp [h3]
  · intro bytes h1 h2 h3 h4
    rw [is_block_valid, if_neg (by simp [h1]), h2]
    simp [h3, h4]
  · intro bytes h1 h2 h3 h4
    rw [is_block_valid, if_neg (by simp [h1]), h2]
    simp [h3, h4]

/-- Counterexample for C3 as stated: a candidate whose `previous_hash`
matches the previous record but whose `hash` field is not valid hex makes
`is_block_valid` panic (`none`) — the claim asserted no candidate can
cause a fatal error. -/
theorem is_block_valid_nonhex_panics : is_block_valid nonHexBlock gA = none := by decide

/-- Witness for C3's amended theorem: the first check fails and is
reported for a concrete mismatched candidate; the concrete non-hex
candidate reaches the panic. -/
theorem is_block_valid_ordered_checks_witness :
    is_block_valid badBlock gA = some false ∧ is_block_valid nonHexBlock gA = none :=
  ⟨(is_block_valid_ordered_checks badBlock gA).1 (by decide),
   (is_block_valid_ordered_checks nonHexBlock gA).2.1 (by decide) (by decide)⟩

/-- C5: on a chain with tip `tip`, `try_add_block` appends the candidate
exactly when `is_block_valid` returns true; when it returns false the
chain is returned unchanged (in particular for any candidate whose
`previous_hash` differs from the tip's hash); a validation panic
propagates and nothing is appended. -/
theorem try_add_block_append_or_unchanged (blocks : List Block) (b tip : Block)
    (htip : blocks.getLast? = some tip) :
    (is_block_valid b tip = some true → try_add_block b blocks = some (blocks ++ [b])) ∧
    (is_block_valid b tip = some false → try_add_block b blocks = some blocks) ∧
    (is_block_valid b tip = none → try_add_block b blocks = none) ∧
    (b.previous_hash ≠ tip.hash → try_add_block b blocks = some blocks) := by
  refine ⟨?_, ?_, ?_, ?_⟩ <;> intro h
  · rw [try_add_block, htip]
    dsimp only
    rw [h]
  · rw [try_add_block, htip]
    dsimp only
    rw [h]
  · rw [try_add_block, htip]
    dsimp only
    rw [h]
  · rw [try_add_block, htip]
    dsimp only
    rw [(is_block_valid_ordered_checks b tip).1 h]

/-- Witness for C5: appending the concrete valid successor `blockB1` to
the genesis chain extends it; a candidate with a mismatched
`previous_hash` leaves the chain unchanged. -/
theorem try_add_block_append_or_unchanged_witness :
    try_add_block blockB1 [gA] = some [gA, blockB1] ∧
    try_add_block badBlock [gA] = some [gA] :=
  ⟨(try_add_block_append_or_unchanged [gA] blockB1 gA (by decide)).1 (by decide),
   (try_add_block_append_or_unchanged [gA] badBlock gA (by decide)).2.2.2 (by decide)⟩

/-- C9: `genesis` is not idempotent — each call unconditionally appends
one genesis-shaped record (id 0, 64-character all-zero hash and previous
hash, payload Genesis, no transfers, nonce 0), so two calls leave two
genesis-shaped records in the sequence. -/
theorem genesis_not_idempotent (t1 t2 : Int) (st : List Block) :
    genesis t2 (genesis t1 st) = st ++ [genesisBlock t1, genesisBlock t2] ∧
    ((genesis t2 (genesis t1 st)).filter isGenesisShaped).length =
      (st.filter isGenesisShaped).length + 2 ∧
    isGenesisShaped (genesisBlock t1) = true ∧
    (genesisBlock t1).id = 0 ∧ (genesisBlock t1).hash = zeros64 ∧
    (genesisBlock t1).previous_hash = zeros64 ∧ zeros64.length = 64 ∧
    (genesisBlock t1).data = "Genesis" ∧ (genesisBlock t1).transactions = [] ∧
    (genesisBlock t1).nonce = 0 := by
  have hshape : ∀ t : Int, isGenesisShaped (genesisBlock t) = true := by
    intro t
    rfl
  refine ⟨by simp [genesis], ?_, hshape t1, rfl, rfl, rfl, by decide, rfl, rfl, rfl⟩
  simp [genesis, List.filter_append, hshape]

/-- C10: `try_add_block` (and the create-block command path) has the
unstated precondition of a non-empty chain: on an empty chain the
`last().expect(..)` lookup panics (`none`) instead of reporting a
validation failure. -/
theorem empty_chain_tip_panics :
    (∀ b, try_add_block b [] = none) ∧
    (∀ ts fuel, handle_create_block ("create b hi") ts fuel [] = none) := by
  constructor
  · intro b
    rfl
  · intro ts fuel
    have hpre : rsStartsWith ("create b hi") ("create b") = true := by decide
    rw [handle_create_block, if_pos hpre]
    rfl

theorem natBinAux_zero (f : Nat) : natBinAux f 0 = [] := by cases f <;> rfl

theorem natBinAux_head : ∀ fuel n, n ≠ 0 → n ≤ fuel → ∃ r, natBinAux fuel n = '1' :: r := by
  intro fuel
  induction fuel with
  | zero => intro n h1 h2; omega
  | succ f ih =>
      intro n h1 h2
      obtain ⟨m, rfl⟩ : ∃ m, n = m + 1 := ⟨n - 1, by omega⟩
      have heq : natBinAux (f + 1) (m + 1) =
          natBinAux f ((m + 1) / 2) ++ [if (m + 1) % 2 = 1 then '1' else '0'] := rfl
      rw [heq]
      by_cases hm : (m + 1) / 2 = 0
      · have hm1 : m = 0 := by omega
        subst hm1
        rw [hm, natBinAux_zero]
        exact ⟨[], rfl⟩
      · obtain ⟨r, hr⟩ := ih ((m + 1) / 2) hm (by omega)
        exact ⟨r ++ [if (m + 1) % 2 = 1 then '1' else '0'], by rw [hr]; rfl⟩

theorem natToBinChars_head (n : Nat) (h : n ≠ 0) : ∃ r, natToBinChars n = '1' :: r := by
  rw [natToBinChars, if_neg h]
  exact natBinAux_head n n h le_rfl

theorem strmk_append (a b : List Char) : String.mk a ++ String.mk b = String.mk (a ++ b) := rfl

theorem h2br_fold_acc : ∀ (bytes : List Nat) (acc : List Char),
    bytes.foldl (fun res c => res ++ String.mk (natToBinChars c)) (String.mk acc) =
      String.mk (acc ++ (bytes.map natToBinChars).flatten) := by
  intro bytes
  induction bytes with
  | nil => intro acc; simp
  | cons b t ih =>
      intro acc
      show t.foldl _ (String.mk acc ++ String.mk (natToBinChars b)) = _
      rw [strmk_append, ih (acc ++ natToBinChars b)]
      simp

theorem h2br_flatten (bytes : List Nat) :
    hash_to_binary_representation bytes = String.mk ((bytes.map natToBinChars).flatten) := by
  have h := h2br_fold_acc bytes []
  simpa [hash_to_binary_representation] using h

theorem isPrefixOf00 (l : List Char) :
    List.isPrefixOf ['0', '0'] l = true ↔ ∃ t, l = '0' :: '0' :: t := by
  match l with
  | [] => simp [List.isPrefixOf]
  | [a] => simp [List.isPrefixOf]
  | a :: b :: t =>
      have h0 : List.isPrefixOf ([] : List Char) t = true := by cases t <;> rfl
      simp only [List.isPrefixOf, h0, Bool.and_true, Bool.and_eq_true, beq_iff_eq,
        List.cons.injEq]
      constructor
      · rintro ⟨h1, h2⟩
        exact ⟨t, h1.symm, h2.symm, rfl⟩
      · rintro ⟨t2, h1, h2, h3⟩
        exact ⟨h1.symm, h2.symm⟩

/-- The difficulty test on the unpadded bit string holds exactly when the
first two BYTES of the digest are numerically zero: any nonzero byte
contributes a bit string starting with the digit 1. -/
theorem h2br_startsWith00 (bytes : List Nat) :
    rsStartsWith (hash_to_binary_representation bytes) DIFFICULTY_PREFIX = true ↔
      ∃ t, bytes = 0 :: 0 :: t := by
  rw [h2br_flatten, rsStartsWith]
  have hDP : DIFFICULTY_PREFIX.toList = ['0', '0'] := rfl
  have hmk : (String.mk ((bytes.map natToBinChars).flatten)).toList =
      (bytes.map natToBinChars).flatten := rfl
  rw [hDP, hmk, isPrefixOf00]
  constructor
  · rintro ⟨t, ht⟩
    cases bytes with
    | nil => simp at ht
    | cons b rest =>
        by_cases hb : b = 0
        · subst hb
          rw [List.map_cons, List.flatten_cons, show natToBinChars 0 = ['0'] from rfl] at ht
          simp only [List.singleton_append, List.cons.injEq] at ht
          obtain ⟨-, ht2⟩ := ht
          cases rest with
          | nil => simp at ht2
          | cons c t2 =>
              by_cases hc : c = 0
              · subst hc
                exact ⟨t2, rfl⟩
              · obtain ⟨r, hr⟩ := natToBinChars_head c hc
                rw [List.map_cons, List.flatten_cons, hr] at ht2
                simp only [List.cons_append, List.cons.injEq] at ht2
                exact absurd ht2.1 (by decide)
        · obtain ⟨r, hr⟩ := natToBinChars_head b hb
          rw [List.map_cons, List.flatten_cons, hr] at ht
          simp only [List.cons_append, List.cons.injEq] at ht
          exact absurd ht.1 (by decide)
  · rintro ⟨t, rfl⟩
    exact ⟨(t.map natToBinChars).flatten, rfl⟩

/-- C6: `hash_to_binary_representation` concatenates each byte's binary
digits WITHOUT zero-padding to 8 bits (byte 0 contributes the single
character 0, byte 1 the single character 1), so the two-character
difficulty prefix test succeeds exactly when the first two bytes are
numerically zero — a condition on leading byte values, not a true
leading-zero-bit count. -/
theorem bit_string_unpadded :
    hash_to_binary_representation [0] = "0" ∧
    hash_to_binary_representation [1] = "1" ∧
    (∀ bytes, rsStartsWith (hash_to_binary_representation bytes) DIFFICULTY_PREFIX = true ↔
      ∃ t, bytes = 0 :: 0 :: t) :=
  ⟨by decide, by decide, h2br_startsWith00⟩

theorem sha256_bytes_lt (msg : List Nat) : ∀ b ∈ sha256 msg, b < 256 := by
  intro b hb
  simp only [sha256, List.mem_flatten, List.mem_map] at hb
  obtain ⟨l, ⟨w, hw, rfl⟩, hbl⟩ := hb
  simp only [wordBytes, List.mem_cons, List.not_mem_nil, or_false] at hbl
  rcases hbl with h | h | h | h <;> subst h <;> exact Nat.mod_lt _ (by omega)

theorem hexVal_hexDigitCh (x : Nat) (hx : x < 16) : hexVal (hexDigitCh x) = some x := by
  interval_cases x <;> decide

theorem hexDecodeList_enc (bs : List Nat) (h : ∀ b ∈ bs, b < 256) :
    hexDecodeList ((bs.map (fun b => [hexDigitCh (b / 16), hexDigitCh (b % 16)])).flatten) =
      some bs := by
  induction bs with
  | nil => rfl
  | cons b t ih =>
      have hb : b < 256 := h b (List.mem_cons_self b t)
      rw [List.map_cons, List.flatten_cons, List.cons_append, List.cons_append,
        List.nil_append, hexDecodeList]
      rw [hexVal_hexDigitCh (b / 16) (by omega), hexVal_hexDigitCh (b % 16) (by omega),
        ih (fun x hx => h x (List.mem_cons_of_mem b hx))]
      dsimp only
      rw [Nat.div_add_mod]

theorem hexDecode_hexEncode (bs : List Nat) (h : ∀ b ∈ bs, b < 256) :
    hexDecode (hexEncode bs) = some bs :=
  hexDecodeList_enc bs h

theorem hexEncode_inj (a b : List Nat) (ha : ∀ x ∈ a, x < 256) (hb : ∀ x ∈ b, x < 256)
    (h : hexEncode a = hexEncode b) : a = b := by
  have h1 := hexDecode_hexEncode a ha
  have h2 := hexDecode_hexEncode b hb
  rw [h, h2] at h1
  exact (Option.some.inj h1).symm

theorem mineAux_spec (id : Nat) (ts : Int) (ph data : String) :
    ∀ fuel start n h, mineAux id ts ph data fuel start = some (n, h) →
      start ≤ n ∧
      h = hexEncode (calculate_hash id ts ph data n) ∧
      rsStartsWith (hash_to_binary_representation (calculate_hash id ts ph data n))
        DIFFICULTY_PREFIX = true ∧
      ∀ m, start ≤ m → m < n →
        rsStartsWith (hash_to_binary_representation (calculate_hash id ts ph data m))
          DIFFICULTY_PREFIX = false := by
  intro fuel
  induction fuel with
  | zero =>
      intro start n h heq
      exact absurd heq (by simp [mineAux])
  | succ f ih =>
      intro start n h heq
      simp only [mineAux] at heq
      by_cases hdif : rsStartsWith (hash_to_binary_representation
          (calculate_hash id ts ph data start)) DIFFICULTY_PREFIX = true
      · rw [if_pos hdif] at heq
        obtain ⟨rfl, rfl⟩ : start = n ∧ hexEncode (calculate_hash id ts ph data start) = h := by
          simpa using heq
        exact ⟨le_rfl, rfl, hdif, fun m h1 h2 => absurd h1 (by omega)⟩
      · rw [if_neg hdif] at heq
        obtain ⟨hle, hh, hd, hmin⟩ := ih (start + 1) n h heq
        refine ⟨by omega, hh, hd, fun m h1 h2 => ?_⟩
        by_cases hm : m = start
        · subst hm
          simpa using hdif
        · exact hmin m (by omega) h2

/-- C4: whenever `mine_block` returns a (nonce, hash) pair, the nonce is
the least one whose digest's bit string satisfies the difficulty prefix
(the search starts at 0 and increments), the hash is the hex encoding of
the digest at that nonce, and a record assembled from those fields passes
`is_block_valid` against any previous record whose hash is the supplied
previous hash (for any transactions list, which the digest ignores). -/
theorem mine_block_first_satisfying (id : Nat) (ts : Int) (ph data : String)
    (fuel n : Nat) (h : String)
    (hmine : mine_block id ts ph data fuel = some (n, h)) :
    h = hexEncode (calculate_hash id ts ph data n) ∧
    rsStartsWith (hash_to_binary_representation (calculate_hash id ts ph data n))
      DIFFICULTY_PREFIX = true ∧
    (∀ m, m < n →
      rsStartsWith (hash_to_binary_representation (calculate_hash id ts ph data m))
        DIFFICULTY_PREFIX = false) ∧
    ∀ (prev : Block) (txs : List Transaction), prev.hash = ph →
      is_block_valid { id := id, hash := h, previous_hash := ph, timestamp := ts,
                       data := data, transactions := txs, nonce := n } prev = some true := by
  obtain ⟨-, hh, hd, hmin⟩ := mineAux_spec id ts ph data fuel 0 n h hmine
  refine ⟨hh, hd, fun m hm => hmin m (Nat.zero_le m) hm, ?_⟩
  intro prev txs hprev
  have hbytes : ∀ b ∈ calculate_hash id ts ph data n, b < 256 := sha256_bytes_lt _
  have hdec : hexDecode h = some (calculate_hash id ts ph data n) := by
    rw [hh]
    exact hexDecode_hexEncode _ hbytes
  simp only [is_block_valid]
  rw [if_neg (by simp [hprev])]
  rw [hdec]
  dsimp only
  rw [if_neg (by simp [hd])]
  rw [if_neg (by simp [hh])]

/-- Witness for C4: for concrete fields whose digest at nonce 0 already
meets the difficulty prefix, `mine_block` returns (0, hash) within fuel 1
and the assembled record validates against the genesis record. -/
theorem mine_block_first_satisfying_witness :
    mine_block 1 1700000000 zeros64 ("w12486") 1 =
      some (0, "00008abc0d6741692e720ff15cf19186249208f579336e33439b506593bc1ace") ∧
    is_block_valid { id := 1,
                     hash := "00008abc0d6741692e720ff15cf19186249208f579336e33439b506593bc1ace",
                     previous_hash := zeros64, timestamp := 1700000000, data := "w12486",
                     transactions := [], nonce := 0 } gA = some true :=
  ⟨by decide,
   (mine_block_first_satisfying 1 1700000000 zeros64 ("w12486") 1 0
     ("00008abc0d6741692e720ff15cf19186249208f579336e33439b506593bc1ace")
     (by decide)).2.2.2 gA [] (by decide)⟩

theorem pairs_cons_cons (a b : Block) (ys : List Block) :
    chain_valid_pairs_spec (a :: b :: ys) =
      match is_block_valid b a with
      | some true => chain_valid_pairs_spec (b :: ys)
      | some false => some false
      | none => none := rfl

theorem seqOpt_eq_true (p q : Option Bool) :
    seqOpt p q = some true ↔ p = some true ∧ q = some true := by
  cases p with
  | none => simp [seqOpt]
  | some v => cases v <;> simp [seqOpt]

theorem pairs_append (a : Block) (ys : List Block) :
    ∀ xs, chain_valid_pairs_spec (xs ++ a :: ys) =
      seqOpt (chain_valid_pairs_spec (xs ++ [a])) (chain_valid_pairs_spec (a :: ys)) := by
  intro xs
  induction xs with
  | nil => rfl
  | cons x xs ih =>
      cases xs with
      | nil =>
          cases hv : is_block_valid a x with
          | none => simp [chain_valid_pairs_spec, hv, seqOpt]
          | some v => cases v <;> simp [chain_valid_pairs_spec, hv, seqOpt]
      | cons y t =>
          cases hv : is_block_valid y x with
          | none => simp [chain_valid_pairs_spec, hv, seqOpt]
          | some v =>
              cases v
              · simp [chain_valid_pairs_spec, hv, seqOpt]
              · simp only [List.cons_append]
                rw [pairs_cons_cons x y (t ++ a :: ys), pairs_cons_cons x y (t ++ [a]), hv]
                dsimp only
                rw [← List.cons_append, ← List.cons_append, ih]

theorem pairs_cons_cons_true (a b : Block) (ys : List Block)
    (h : chain_valid_pairs_spec (a :: b :: ys) = some true) :
    is_block_valid b a = some true ∧ chain_valid_pairs_spec (b :: ys) = some true := by
  rw [pairs_cons_cons] at h
  cases hv : is_block_valid b a with
  | none => rw [hv] at h; exact absurd h (by simp)
  | some v =>
      cases v
      · rw [hv] at h; exact absurd h (by simp)
      · rw [hv] at h; exact ⟨rfl, h⟩

theorem ibv_true_elim (b a : Block) (h : is_block_valid b a = some true) :
    b.previous_hash = a.hash ∧ ∃ bytes, hexDecode b.hash = some bytes ∧
      rsStartsWith (hash_to_binary_representation bytes) DIFFICULTY_PREFIX = true ∧
      hexEncode (calculate_hash b.id b.timestamp b.previous_hash b.data b.nonce) = b.hash := by
  by_cases h1 : b.previous_hash ≠ a.hash
  · rw [is_block_valid, if_pos h1] at h
    exact absurd h (by simp)
  · push_neg at h1
    rw [is_block_valid, if_neg (by simp [h1])] at h
    cases hdec : hexDecode b.hash with
    | none => rw [hdec] at h; exact absurd h (by simp)
    | some bytes =>
        rw [hdec] at h
        dsimp only at h
        by_cases h2 : rsStartsWith (hash_to_binary_representation bytes)
            DIFFICULTY_PREFIX = true
        · rw [if_neg (by simp [h2])] at h
          by_cases h3 : hexEncode (calculate_hash b.id b.timestamp b.previous_hash b.data
              b.nonce) = b.hash
          · exact ⟨h1, bytes, rfl, h2, h3⟩
          · rw [if_pos h3] at h
            exact absurd h (by simp)
        · rw [if_pos (by simpa using h2)] at h
          exact absurd h (by simp)

theorem chain_mut_invalid (xs ys : List Block) (a b b' : Block)
    (hvalid : is_chain_valid (xs ++ a :: b :: ys) = some true)
    (hbad : is_block_valid b' a = some false) :
    is_chain_valid (xs ++ a :: b' :: ys) = some false := by
  rw [is_chain_valid_eq_pairs] at hvalid ⊢
  rw [pairs_append a (b :: ys) xs] at hvalid
  obtain ⟨hpre, -⟩ := (seqOpt_eq_true _ _).mp hvalid
  rw [pairs_append a (b' :: ys) xs, hpre]
  dsimp only [seqOpt]
  rw [pairs_cons_cons, hbad]

theorem chain_mut_not_true (xs ys : List Block) (a b b' : Block)
    (hvalid : is_chain_valid (xs ++ a :: b :: ys) = some true)
    (hbad : is_block_valid b' a ≠ some true) :
    is_chain_valid (xs ++ a :: b' :: ys) ≠ some true := by
  rw [is_chain_valid_eq_pairs] at hvalid ⊢
  rw [pairs_append a (b :: ys) xs] at hvalid
  obtain ⟨hpre, -⟩ := (seqOpt_eq_true _ _).mp hvalid
  rw [pairs_append a (b' :: ys) xs, hpre]
  dsimp only [seqOpt]
  rw [pairs_cons_cons]
  cases hv : is_block_valid b' a with
  | none => simp
  | some v =>
      cases v
      · simp
      · exact absurd hv hbad

theorem chain_mut_tx (xs ys : List Block) (a b : Block) (t2 : List Transaction)
    (hvalid : is_chain_valid (xs ++ a :: b :: ys) = some true) :
    is_chain_valid (xs ++ a :: { b with transactions := t2 } :: ys) = some true := by
  rw [is_chain_valid_eq_pairs] at hvalid ⊢
  rw [pairs_append a (b :: ys) xs] at hvalid
  rw [pairs_append a ({ b with transactions := t2 } :: ys) xs]
  have h2 : chain_valid_pairs_spec ({ b with transactions := t2 } :: ys) =
      chain_valid_pairs_spec (b :: ys) := by
    cases ys with
    | nil => rfl
    | cons y t3 =>
        rw [pairs_cons_cons, pairs_cons_cons]
        rfl
  have h1 : chain_valid_pairs_spec (a :: { b with transactions := t2 } :: ys) =
      chain_valid_pairs_spec (a :: b :: ys) := by
    rw [pairs_cons_cons, pairs_cons_cons, h2]
    rfl
  rw [h1]
  exact hvalid

theorem ibv_digest_mut (a b b' : Block)
    (hprev2 : b'.previous_hash = b.previous_hash) (hhash2 : b'.hash = b.hash)
    (hibv : is_block_valid b a = some true)
    (hne : calculate_hash b'.id b'.timestamp b'.previous_hash b'.data b'.nonce ≠
           calculate_hash b.id b.timestamp b.previous_hash b.data b.nonce) :
    is_block_valid b' a = some false := by
  obtain ⟨hprev, bytes, hdec, hdiff, hdig⟩ := ibv_true_elim b a hibv
  rw [is_block_valid]
  rw [if_neg (by rw [hprev2, hprev]; simp)]
  rw [hhash2, hdec]
  dsimp only
  rw [if_neg (by simp [hdiff])]
  have hcond : hexEncode (calculate_hash b'.id b'.timestamp b'.previous_hash b'.data
      b'.nonce) ≠ b.hash := by
    intro heq
    exact hne (hexEncode_inj _ _ (sha256_bytes_lt _) (sha256_bytes_lt _)
      (heq.trans hdig.symm))
  rw [if_pos hcond]

/-- C2 (amended): for any chain passing `is_chain_valid` and any
non-genesis position (the mutated record `b` has predecessor `a`),
mutating `previous_hash` to any different value invalidates the chain;
mutating `id`, `timestamp`, `payload` or `nonce` invalidates it whenever
the recomputed digest differs from the original (guaranteed in practice
by SHA-256 collision resistance); mutating `hash` to any different value
never leaves the chain passing (it yields false, or the hex-decode panic
for a non-hex value); but mutating `transfers` leaves the chain valid,
because the digest does not cover the transactions. -/
theorem chain_single_field_mutation (xs ys : List Block) (a b : Block)
    (hvalid : is_chain_valid (xs ++ a :: b :: ys) = some true) :
    (∀ id2, calculate_hash id2 b.timestamp b.previous_hash b.data b.nonce ≠
        calculate_hash b.id b.timestamp b.previous_hash b.data b.nonce →
      is_chain_valid (xs ++ a :: { b with id := id2 } :: ys) = some false) ∧
    (∀ ts2, calculate_hash b.id ts2 b.previous_hash b.data b.nonce ≠
        calculate_hash b.id b.timestamp b.previous_hash b.data b.nonce →
      is_chain_valid (xs ++ a :: { b with timestamp := ts2 } :: ys) = some false) ∧
    (∀ d2, calculate_hash b.id b.timestamp b.previous_hash d2 b.nonce ≠
        calculate_hash b.id b.timestamp b.previous_hash b.data b.nonce →
      is_chain_valid (xs ++ a :: { b with data := d2 } :: ys) = some false) ∧
    (∀ n2, calculate_hash b.id b.timestamp b.previous_hash b.data n2 ≠
        calculate_hash b.id b.timestamp b.previous_hash b.data b.nonce →
      is_chain_valid (xs ++ a :: { b with nonce := n2 } :: ys) = some false) ∧
    (∀ p2, p2 ≠ b.previous_hash →
      is_chain_valid (xs ++ a :: { b with previous_hash := p2 } :: ys) = some false) ∧
    (∀ h2, h2 ≠ b.hash →
      is_chain_valid (xs ++ a :: { b with hash := h2 } :: ys) ≠ some true) ∧
    (∀ t2, is_chain_valid (xs ++ a :: { b with transactions := t2 } :: ys) = some true) := by
  have hv0 := hvalid
  rw [is_chain_valid_eq_pairs, pairs_append a (b :: ys) xs] at hvalid
  obtain ⟨hpre, hsuf⟩ := (seqOpt_eq_true _ _).mp hvalid
  obtain ⟨hibv, -⟩ := pairs_cons_cons_true a b ys hsuf
  obtain ⟨hprev, bytes, hdec, hdiff, hdig⟩ := ibv_true_elim b a hibv
  refine ⟨?_, ?_, ?_, ?_, ?_, ?_, ?_⟩
  · intro id2 hne
    exact chain_mut_invalid xs ys a b _ hv0 (ibv_digest_mut a b _ rfl rfl hibv hne)
  · intro ts2 hne
    exact chain_mut_invalid xs ys a b _ hv0 (ibv_digest_mut a b _ rfl rfl hibv hne)
  · intro d2 hne
    exact chain_mut_invalid xs ys a b _ hv0 (ibv_digest_mut a b _ rfl rfl hibv hne)
  · intro n2 hne
    exact chain_mut_invalid xs ys a b _ hv0 (ibv_digest_mut a b _ rfl rfl hibv hne)
  · intro p2 hp
    refine chain_mut_invalid xs ys a b _ hv0 ?_
    rw [is_block_valid, if_pos ?_]
    show ({ b with previous_hash := p2 } : Block).previous_hash ≠ a.hash
    dsimp only
    rw [← hprev]
    exact hp
  · intro h2 hh2
    refine chain_mut_not_true xs ys a b _ hv0 ?_
    rw [is_block_valid, if_neg (by dsimp only; simp [hprev])]
    dsimp only
    cases hd2 : hexDecode h2 with
    | none => simp
    | some bytes2 =>
        dsimp only
        by_cases hdf : rsStartsWith (hash_to_binary_representation bytes2)
            DIFFICULTY_PREFIX = true
        · rw [if_neg (by simp [hdf])]
          rw [if_pos ?_]
          · simp
          · show hexEncode (calculate_hash b.id b.timestamp b.previous_hash b.data
              b.nonce) ≠ h2
            intro heq
            exact hh2 (heq.symm.trans hdig)
        · rw [if_pos (by simpa using hdf)]
          simp
  · intro t2
    exact chain_mut_tx xs ys a b t2 hv0

/-- Counterexample for C2 as stated: on the concrete valid chain `chain2`,
mutating the `transfers` field of the non-genesis record leaves
`is_chain_valid` returning true (the digest does not cover transactions),
and mutating its `hash` field to a non-hex value panics instead of
returning false. -/
theorem chain_mutation_cex :
    is_chain_valid chain2 = some true ∧
    ({ blockB1 with transactions := [] } : Block) ≠ blockB1 ∧
    is_chain_valid [gA, { blockB1 with transactions := [] }] = some true ∧
    is_chain_valid [gA, { blockB1 with hash := "zz" }] = none := by
  exact ⟨by decide, by decide, by decide, by decide⟩

/-- Witness for C2's amended theorem at the concrete chain `chain2`:
a payload mutation with a changed digest invalidates, a previous-hash
mutation invalidates, a hash mutation never validates, and a transfers
mutation keeps the chain valid. -/
theorem chain_single_field_mutation_witness :
    is_chain_valid [gA, { blockB1 with data := "xhello" }] = some false ∧
    is_chain_valid [gA, { blockB1 with previous_hash := "aa" }] = some false ∧
    is_chain_valid [gA, { blockB1 with hash := "zz" }] ≠ some true ∧
    is_chain_valid [gA, { blockB1 with transactions := [] }] = some true :=
  ⟨(chain_single_field_mutation [] [] gA blockB1 (by decide)).2.2.1 ("xhello") (by decide),
   (chain_single_field_mutation [] [] gA blockB1 (by decide)).2.2.2.2.1 ("aa") (by decide),
   (chain_single_field_mutation [] [] gA blockB1 (by decide)).2.2.2.2.2.1 ("zz") (by decide),
   (chain_single_field_mutation [] [] gA blockB1 (by decide)).2.2.2.2.2.2 []⟩

/-- C8: inbound chain-sync classification is structural and ordered.
A payload decodable as a chain-response is handled first: only when its
receiver is this node's identity is `choose_chain(local, blocks)` applied
and its result adopted (a different receiver drops the message with no
state change — it is NOT retried as a chain-request).  Otherwise a
payload decodable as a chain-request is handled: only when its
`from_peer_id` is this node's identity is a chain-response carrying the
full local chain queued, addressed to the message's origin.  A payload
matching none of the expected shapes is silently dropped with no state
change and no error. -/
theorem inject_event_dispatch (selfId : String) (msg : FloodsubMsg) (st : NodeState) :
    (∀ resp, msg.asChainResponse = some resp → resp.receiver = selfId →
      inject_event selfId msg st =
        (choose_chain st.blocks resp.blocks).map (fun c => { st with blocks := c })) ∧
    (∀ resp, msg.asChainResponse = some resp → resp.receiver ≠ selfId →
      inject_event selfId msg st = some st) ∧
    (∀ req, msg.asChainResponse = none → msg.asChainRequest = some req →
      req.from_peer_id = selfId →
      inject_event selfId msg st = some { st with
        queued := st.queued ++ [{ blocks := st.blocks, receiver := msg.source }] }) ∧
    (∀ req, msg.asChainResponse = none → msg.asChainRequest = some req →
      req.from_peer_id ≠ selfId →
      inject_event selfId msg st = some st) ∧
    (msg.asChainResponse = none → msg.asChainRequest = none → msg.asBlock = none →
      inject_event selfId msg st = some st) := by
  refine ⟨?_, ?_, ?_, ?_, ?_⟩
  · intro resp h1 h2
    rw [inject_event, h1]
    dsimp only
    rw [if_pos h2]
    cases choose_chain st.blocks resp.blocks <;> rfl
  · intro resp h1 h2
    rw [inject_event, h1]
    dsimp only
    rw [if_neg h2]
  · intro req h1 h2 h3
    rw [inject_event, h1]
    dsimp only
    rw [h2]
    dsimp only
    rw [if_pos h3]
  · intro req h1 h2 h3
    rw [inject_event, h1]
    dsimp only
    rw [h2]
    dsimp only
    rw [if_neg h3]
  · intro h1 h2 h3
    rw [inject_event, h1]
    dsimp only
    rw [h2]
    dsimp only
    rw [h3]

/-- Witness for C8 at concrete messages: a chain-response addressed to
this node makes it adopt the fork-choice result; one addressed elsewhere
is dropped; a chain-request naming this node queues a response carrying
the local chain addressed to the origin; an unrecognized payload is
dropped with no state change. -/
theorem inject_event_dispatch_witness :
    inject_event ("me")
      { asChainResponse := some { blocks := [], receiver := "me" },
        asChainRequest := none, asBlock := none, source := "peerX" }
      { blocks := [gA], queued := [] } =
      (choose_chain [gA] []).map
        (fun c => { blocks := c, queued := ([] : List ChainResponse) }) ∧
    inject_event ("me")
      { asChainResponse := some { blocks := [], receiver := "you" },
        asChainRequest := some { from_peer_id := "me" }, asBlock := none,
        source := "peerX" }
      { blocks := [gA], queued := [] } = some { blocks := [gA], queued := [] } ∧
    inject_event ("me")
      { asChainResponse := none, asChainRequest := some { from_peer_id := "me" },
        asBlock := none, source := "peerX" }
      { blocks := [gA], queued := [] } =
      some { blocks := [gA], queued := [{ blocks := [gA], receiver := "peerX" }] } ∧
    inject_event ("me")
      { asChainResponse := none, asChainRequest := none, asBlock := none,
        source := "peerX" }
      { blocks := [gA], queued := [] } = some { blocks := [gA], queued := [] } :=
  ⟨(inject_event_dispatch ("me") _ _).1 { blocks := [], receiver := "me" } rfl rfl,
   (inject_event_dispatch ("me") _ _).2.1 { blocks := [], receiver := "you" } rfl (by decide),
   (inject_event_dispatch ("me") _ _).2.2.1 { from_peer_id := "me" } rfl rfl rfl,
   (inject_event_dispatch ("me") _ _).2.2.2.2 rfl rfl rfl⟩
